import Mathlib

/-!  Shallow embedding of the searxng Bing engine modules
(`src/searx/engines/bing.py`, `bing_news.py`, `bing_videos.py`).

The DOM-selection layer (lxml together with the xpath helpers of
`searx.utils`) is external to these modules; a parser's input is therefore
modelled as the structured value those selectors return: each engine's
`response` function consumes an `Option` DOM structure, where `none` stands
for a body that the HTML parser rejects (its ParserError), and the
structure's fields hold the strings and optional attributes that the xpath
queries of the source produce.  Python exceptions are modelled with
`Except` over `PyErr`; a raised exception aborts the whole parse, exactly
as in the source.  -/

/-- Kinds of Python exceptions reachable in the embedded code. -/
inductive PyErr where
  | parserError
  | jsonError
  | indexError
  | keyError
  | attributeError
  | binasciiError
  | valueError
deriving DecidableEq, Repr

/-! String-level helpers (urllib.parse, base64, utf-8).

These model the Python standard-library routines the engines call.  They
work on `List Char` and are wrapped into `String` at the boundaries. -/

/-- Split at the first occurrence of `sep`, as Python `str.split(sep, 1)`;
`none` when `sep` does not occur. -/
def splitFirst (sep : Char) : List Char → Option (List Char × List Char)
  | [] => none
  | c :: cs =>
    if c = sep then some ([], cs)
    else (splitFirst sep cs).map (fun p => (c :: p.1, p.2))

/-- Split on every occurrence of `sep`, as Python `str.split(sep)`. -/
def splitEvery (sep : Char) : List Char → List (List Char)
  | [] => [[]]
  | c :: cs =>
    match splitEvery sep cs with
    | [] => [[]]
    | h :: t => if c = sep then [] :: h :: t else (c :: h) :: t

/-- Value of an ASCII hex digit. -/
def hexVal (c : Char) : Option Nat :=
  let n := c.toNat
  if 48 ≤ n ∧ n ≤ 57 then some (n - 48)
  else if 97 ≤ n ∧ n ≤ 102 then some (n - 97 + 10)
  else if 65 ≤ n ∧ n ≤ 70 then some (n - 65 + 10)
  else none

/-- Fuel-driven worker for `unquotePlus`; the fuel starts at the input
length, which every step stays below. -/
def unquotePlusF : Nat → List Char → List Char
  | 0, _ => []
  | _, [] => []
  | fuel + 1, c :: cs =>
    if c = '+' then ' ' :: unquotePlusF fuel cs
    else if c = '%' then
      match cs with
      | h1 :: h2 :: rest =>
        match hexVal h1, hexVal h2 with
        | some a, some b => Char.ofNat (a * 16 + b) :: unquotePlusF fuel rest
        | _, _ => c :: unquotePlusF fuel cs
      | _ => c :: unquotePlusF fuel cs
    else c :: unquotePlusF fuel cs

/-- Simplified model of `urllib.parse.unquote_plus` (Python standard
library, external to the repository): a plus becomes a space and a percent
escape of two hex digits becomes the character with that code.  It is exact
on inputs free of percent escapes, the only case the engine code meets. -/
def unquotePlus (l : List Char) : List Char := unquotePlusF l.length l

/-- Model of `urllib.parse.parse_qsl` with default arguments
(`keep_blank_values=False`): fields are split on ampersands, a field
without an equals sign or with an empty value is dropped, names and values
are unquoted. -/
def parseQsl (q : List Char) : List (List Char × List Char) :=
  (splitEvery '&' q).filterMap fun field =>
    match splitFirst '=' field with
    | none => none
    | some (n, v) => if v = [] then none else some (unquotePlus n, unquotePlus v)

/-- Query component extracted by `urllib.parse.urlparse`: the text after
the first question mark, a fragment after the first hash removed first. -/
def urlQuery (url : List Char) : List Char :=
  let noFrag :=
    match splitFirst '#' url with
    | some p => p.1
    | none => url
  match splitFirst '?' noFrag with
  | some p => p.2
  | none => []

/-- First value recorded under `name`: `parse_qs(q).get(name)[0]`. -/
def qsFirst (name : List Char) (q : List (List Char × List Char)) : Option (List Char) :=
  match q.find? (fun p => p.1 = name) with
  | some p => some p.2
  | none => none

/-- Value of a character in the base64 alphabet, after the urlsafe
translation (minus to plus, underscore to slash) that
`base64.urlsafe_b64decode` applies first. -/
def b64Val (c : Char) : Option Nat :=
  let n := c.toNat
  if 65 ≤ n ∧ n ≤ 90 then some (n - 65)
  else if 97 ≤ n ∧ n ≤ 122 then some (n - 97 + 26)
  else if 48 ≤ n ∧ n ≤ 57 then some (n - 48 + 52)
  else if n = 43 ∨ n = 45 then some 62
  else if n = 47 ∨ n = 95 then some 63
  else none

/-- Loop of CPython's `binascii.a2b_base64` in non-strict mode: characters
outside the alphabet are skipped, an equals sign that completes a quad
holding at least two data characters ends the decode successfully, and a
leftover quad position when the input runs out is a `binascii.Error`
(both the "1 more than a multiple of 4" and the "incorrect padding"
messages). -/
def a2bBase64 : List Char → Nat → Nat → Nat → List Nat → Except PyErr (List Nat)
  | [], quadPos, _, _, acc =>
    if quadPos = 0 then .ok acc.reverse else .error .binasciiError
  | c :: cs, quadPos, leftchar, pads, acc =>
    if c.toNat = 61 then
      if 2 ≤ quadPos ∧ 4 ≤ quadPos + pads + 1 then .ok acc.reverse
      else if 2 ≤ quadPos then a2bBase64 cs quadPos leftchar (pads + 1) acc
      else a2bBase64 cs quadPos leftchar pads acc
    else
      match b64Val c with
      | none => a2bBase64 cs quadPos leftchar pads acc
      | some v =>
        match quadPos with
        | 0 => a2bBase64 cs 1 v 0 acc
        | 1 => a2bBase64 cs 2 (v % 16) 0 ((leftchar * 4 + v / 16) :: acc)
        | 2 => a2bBase64 cs 3 (v % 4) 0 ((leftchar * 16 + v / 4) :: acc)
        | _ => a2bBase64 cs 0 0 0 ((leftchar * 64 + v) :: acc)

/-- `base64.urlsafe_b64decode` on a `str` argument: non-ASCII input raises
a ValueError from the internal ascii encode, otherwise the non-strict
binascii loop runs. -/
def urlsafeB64decode (s : List Char) : Except PyErr (List Nat) :=
  if s.any (fun c => 128 ≤ c.toNat) then .error .valueError
  else a2bBase64 s 0 0 0 []

/-- UTF-8 encoding of one character, in arithmetic form. -/
def utf8EncodeChar (c : Char) : List Nat :=
  let v := c.toNat
  if v < 128 then [v]
  else if v < 2048 then [192 + v / 64, 128 + v % 64]
  else if v < 65536 then [224 + v / 4096, 128 + v / 64 % 64, 128 + v % 64]
  else [240 + v / 262144, 128 + v / 4096 % 64, 128 + v / 64 % 64, 128 + v % 64]

/-- UTF-8 encoding of a string. -/
def utf8Encode (s : String) : List Nat :=
  (s.data.map utf8EncodeChar).flatten

/-- The replacement character U+FFFD. -/
def utf8Repl : Char := Char.ofNat 65533

/-- Fuel-driven worker for `utf8DecodeReplace`; the fuel starts at the
input length, which every step stays below. -/
def utf8DecodeReplaceF : Nat → List Nat → List Char
  | 0, _ => []
  | _, [] => []
  | fuel + 1, b :: bs =>
    if b < 128 then Char.ofNat b :: utf8DecodeReplaceF fuel bs
    else if 194 ≤ b ∧ b ≤ 223 then
      match bs with
      | b1 :: bs1 =>
        if 128 ≤ b1 ∧ b1 ≤ 191 then
          Char.ofNat ((b - 192) * 64 + (b1 - 128)) :: utf8DecodeReplaceF fuel bs1
        else utf8Repl :: utf8DecodeReplaceF fuel bs
      | [] => [utf8Repl]
    else if 224 ≤ b ∧ b ≤ 239 then
      match bs with
      | b1 :: b2 :: bs2 =>
        if (128 ≤ b1 ∧ b1 ≤ 191) ∧ (128 ≤ b2 ∧ b2 ≤ 191)
            ∧ (b = 224 → 160 ≤ b1) ∧ (b = 237 → b1 ≤ 159) then
          Char.ofNat ((b - 224) * 4096 + (b1 - 128) * 64 + (b2 - 128)) ::
            utf8DecodeReplaceF fuel bs2
        else utf8Repl :: utf8DecodeReplaceF fuel bs
      | _ => utf8Repl :: utf8DecodeReplaceF fuel bs
    else if 240 ≤ b ∧ b ≤ 244 then
      match bs with
      | b1 :: b2 :: b3 :: bs3 =>
        if (128 ≤ b1 ∧ b1 ≤ 191) ∧ (128 ≤ b2 ∧ b2 ≤ 191) ∧ (128 ≤ b3 ∧ b3 ≤ 191)
            ∧ (b = 240 → 144 ≤ b1) ∧ (b = 244 → b1 ≤ 143) then
          Char.ofNat ((b - 240) * 262144 + (b1 - 128) * 4096 + (b2 - 128) * 64
              + (b3 - 128)) :: utf8DecodeReplaceF fuel bs3
        else utf8Repl :: utf8DecodeReplaceF fuel bs
      | _ => utf8Repl :: utf8DecodeReplaceF fuel bs
    else utf8Repl :: utf8DecodeReplaceF fuel bs

/-- Model of `bytes.decode("utf-8", errors="replace")` (Python runtime,
external to the repository): a well-formed sequence decodes to its scalar
value; anything else yields a replacement character and resynchronizes at
the next byte. -/
def utf8DecodeReplace (l : List Nat) : List Char := utf8DecodeReplaceF l.length l

/-- Base64url encoding without padding — the inverse operation named by the
spec for the click-tracking `u` parameter ("base64url (no-padding)"),
specified as `base64.urlsafe_b64encode` with the trailing equals signs
stripped.  Emitted as character codes of the urlsafe alphabet. -/
def b64EncChar (v : Nat) : Char :=
  if v < 26 then Char.ofNat (65 + v)
  else if v < 52 then Char.ofNat (97 + v - 26)
  else if v < 62 then Char.ofNat (48 + v - 52)
  else if v = 62 then Char.ofNat 45
  else Char.ofNat 95

/-- Base64url-encode a byte list, no padding. -/
def b64urlEncodeNoPad : List Nat → List Char
  | [] => []
  | [b0] => [b64EncChar (b0 / 4), b64EncChar (b0 % 4 * 16)]
  | [b0, b1] =>
    [b64EncChar (b0 / 4), b64EncChar (b0 % 4 * 16 + b1 / 16), b64EncChar (b1 % 16 * 4)]
  | b0 :: b1 :: b2 :: bs =>
    b64EncChar (b0 / 4) :: b64EncChar (b0 % 4 * 16 + b1 / 16) ::
      b64EncChar (b1 % 16 * 4 + b2 / 64) :: b64EncChar (b2 % 64) ::
      b64urlEncodeNoPad bs

/-! Bing web engine (src/searx/engines/bing.py). -/

/-- Primary link of a web result item: the first `.//h2/a` anchor, with its
href attribute (`attrib.get("href", "")` sees `none` as the missing
attribute) and its extracted text. -/
structure BLink where
  href : Option String
  text : String
deriving DecidableEq, Repr

/-- One `li.b_algo` result item as seen through the xpath helpers: the
optional primary link and the extracted text of its `p` elements (after
the decorative-icon removal, which only affects that text). -/
structure BAlgoItem where
  link : Option BLink
  content : String
deriving DecidableEq, Repr

/-- Web result DOM: the matched result items and the joined text of the
`sb_count` banner span. -/
structure WebDom where
  algoItems : List BAlgoItem
  sbCountText : String
deriving DecidableEq, Repr

/-- A dictionary appended by `bing.response`: either a normal result or the
synthetic `number_of_results` summary record. -/
inductive WebResult where
  | normal (url title content : String)
  | count (numberOfResults : Nat)
deriving DecidableEq, Repr

/-- Bing click-tracking URL form tested by `bing.response`. -/
def ckForm : List Char := "https://www.bing.com/ck/a?".data

/-- Redirect-decoding step of `bing.response` (bing.py lines 145-154): a
click-tracking href whose `u` parameter carries an `a1`-tagged base64url
payload is replaced by the decoded destination (padding restored first,
utf-8 decoded with replacement); a missing `u` parameter or a missing `a1`
tag leaves the href unchanged. -/
def processHref (href : String) : Except PyErr String :=
  if ckForm.isPrefixOf href.data then
    match qsFirst ['u'] (parseQsl (urlQuery href.data)) with
    | none => .ok href
    | some uVal =>
      if ['a', '1'].isPrefixOf uVal then
        let encoded := uVal.drop 2
        let padded := encoded ++ List.replicate ((4 - encoded.length % 4) % 4) (Char.ofNat 61)
        match urlsafeB64decode padded with
        | .error e => .error e
        | .ok bytes => .ok (String.mk (utf8DecodeReplace bytes))
      else .ok href
  else .ok href

/-- Result loop of `bing.response` (bing.py lines 133-164): items without a
link are skipped, items with an empty href or title are skipped, the
click-tracking redirect is decoded, and a raised exception aborts the
whole parse. -/
def webItems : List BAlgoItem → Except PyErr (List WebResult)
  | [] => .ok []
  | item :: rest =>
    match item.link with
    | none => webItems rest
    | some link =>
      let href := link.href.getD ""
      let title := link.text
      if href = "" ∨ title = "" then webItems rest
      else
        match processHref href with
        | .error e => .error e
        | .ok url =>
          match webItems rest with
          | .error e => .error e
          | .ok rs => .ok (.normal url title item.content :: rs)

/-- Python `int` on a string of decimal digits. -/
def natOfDigits (l : List Char) : Nat :=
  l.foldl (fun n c => n * 10 + (c.toNat - 48)) 0

/-- `bing.response` (bing.py lines 126-172).  The argument is `none` when
`html.fromstring` rejects the body (lxml ParserError on an empty or
structurally non-HTML document). -/
def webResponse : Option WebDom → Except PyErr (List WebResult)
  | none => .error .parserError
  | some dom =>
    match webItems dom.algoItems with
    | .error e => .error e
    | .ok rs =>
      if rs = [] then .ok rs
      else
        let ds := dom.sbCountText.data.filter Char.isDigit
        if ds = [] then .ok rs else .ok (rs ++ [.count (natOfDigits ds)])

/-- `bing.get_locale_params` (bing.py lines 59-76): no market parameter for
a missing, empty or "clear" region, otherwise the `mkt` pair. -/
def get_locale_params (engine_region : Option String) : Option (String × String) :=
  match engine_region with
  | none => none
  | some r => if r = "" ∨ r = "clear" then none else some ("mkt", r)

/-- Engine traits: the region trait table and the `all_locale` sentinel. -/
structure EngineTraits where
  regions : List (String × String)
  all_locale : Option String
deriving DecidableEq, Repr

/-- Modelled from the spec: `EngineTraits.get_region`
(searx/enginelib/traits.py, code not included under src/) resolves a
searxng locale tag against the regions trait table; a missing, empty,
"clear" or unknown tag falls back to the supplied default, which the
engines pass as `traits.all_locale`, the "no market restriction"
sentinel. -/
def get_region (tr : EngineTraits) (tag : Option String) : Option String :=
  match tag with
  | none => tr.all_locale
  | some t =>
    if t = "" ∨ t = "clear" then tr.all_locale
    else
      match List.lookup t tr.regions with
      | some m => some m
      | none => tr.all_locale

/-- Request parameter bag handed to a `request` builder (the fields of the
searxng `OnlineParams` that these engines read). -/
structure ReqParams where
  searxng_locale : Option String
  safesearch : Nat
  pageno : Nat
  time_range : Option String
deriving DecidableEq, Repr

/-- `bing._safesearch_map` (bing.py lines 45-49). -/
def safesearch_map (n : Nat) : Option String :=
  if n = 0 then some "off"
  else if n = 1 then some "moderate"
  else if n = 2 then some "strict"
  else none

/-- Query parameters assembled by `bing.request` (bing.py lines 101-123):
the query term, the safe-search code, and the optional market pair.
Neither `pageno` nor `time_range` is read. -/
def webQueryParams (query : String) (p : ReqParams) (tr : EngineTraits) :
    List (String × String) :=
  let engine_region := get_region tr p.searxng_locale
  let base := [("q", query), ("adlt", (safesearch_map p.safesearch).getD "off")]
  match get_locale_params engine_region with
  | none => base
  | some kv => base ++ [kv]

/-- Percent-encoding of `urllib.parse.urlencode` via `quote_plus`
(standard library, external to the repository), simplified to byte-level
escaping of ASCII codes; exact on the alphanumeric and safe characters. -/
def quotePlus (l : List Char) : List Char :=
  l.foldr
    (fun c acc =>
      let n := c.toNat
      if (48 ≤ n ∧ n ≤ 57) ∨ (65 ≤ n ∧ n ≤ 90) ∨ (97 ≤ n ∧ n ≤ 122)
          ∨ n = 95 ∨ n = 46 ∨ n = 45 ∨ n = 126 then c :: acc
      else if n = 32 then '+' :: acc
      else
        let hex := fun d => if d < 10 then Char.ofNat (48 + d) else Char.ofNat (55 + d)
        '%' :: hex (n / 16 % 16) :: hex (n % 16) :: acc)
    []

/-- `urllib.parse.urlencode` over a pair list. -/
def urlencodeParams (ps : List (String × String)) : String :=
  String.mk
    (List.intercalate ['&']
      (ps.map fun p => quotePlus p.1.data ++ '=' :: quotePlus p.2.data))

/-- URL assembled by `bing.request`. -/
def webRequestUrl (query : String) (p : ReqParams) (tr : EngineTraits) : String :=
  "https://www.bing.com/search?" ++ urlencodeParams (webQueryParams query p tr)

/-! Bing news engine (src/searx/engines/bing_news.py). -/

/-- Title anchor of a news item (`.//a[@class="title"]`): href attribute
(`attrib.get("href")`, no default), extracted text, and the optional
`data-author` attribute. -/
structure NewsLink where
  href : Option String
  text : String
  dataAuthor : Option String
deriving DecidableEq, Repr

/-- One `div.newsitem` block through the xpath helpers.  `sourceAria` is
`none` when no source div matches; otherwise it carries the optional first
`aria-label` value inside it.  `imgSrc` is `none` when no
`a.imagelink//img` matches; otherwise it carries the optional `src`
attribute of that image. -/
structure NewsItemDom where
  link : Option NewsLink
  snippet : String
  sourceAria : Option (Option String)
  imgSrc : Option (Option String)
deriving DecidableEq, Repr

/-- Record dictionary appended by `bing_news.response`. -/
structure NewsResult where
  url : Option String
  title : String
  content : String
  thumbnail : Option String
  metadata : String
deriving DecidableEq, Repr

/-- Whitespace recognized by Python `str.strip()` (ASCII fragment). -/
def pyWs (c : Char) : Bool :=
  c.toNat = 32 ∨ (9 ≤ c.toNat ∧ c.toNat ≤ 13)

/-- Python `str.strip()` with no argument: leading and trailing
whitespace removed. -/
def pyStrip (s : String) : String :=
  String.mk (((s.data.dropWhile pyWs).reverse.dropWhile pyWs).reverse)

/-- Metadata assembly of `bing_news.response` (bing_news.py lines
100-113): with no source block the list stays empty; otherwise the
aria-label and the link's data-author contribute their stripped text when
non-blank, joined with " | ". -/
def newsMetadata (it : NewsItemDom) (link : NewsLink) : String :=
  let cands : List (Option String) :=
    match it.sourceAria with
    | none => []
    | some aria => [aria, link.dataAuthor]
  String.intercalate " | "
    (cands.filterMap fun o =>
      match o with
      | none => none
      | some t => if t ≠ "" ∧ pyStrip t ≠ "" then some (pyStrip t) else none)

/-- Thumbnail step of `bing_news.response` (bing_news.py lines 115-120):
no image link leaves the thumbnail `None`; an image without a `src`
attribute raises an AttributeError on `None.startswith`; otherwise a src
not starting with the Bing origin gets `"https://www.bing.com/"`
prepended. -/
def newsThumbnail (imgSrc : Option (Option String)) : Except PyErr (Option String) :=
  match imgSrc with
  | none => .ok none
  | some none => .error .attributeError
  | some (some s) =>
    if ¬ ("https://www.bing.com".data.isPrefixOf s.data) then
      .ok (some ("https://www.bing.com/" ++ s))
    else .ok (some s)

/-- Result loop of `bing_news.response` (bing_news.py lines 92-130): items
without a title link are skipped; every other item is appended without any
url or title check. -/
def newsItems : List NewsItemDom → Except PyErr (List NewsResult)
  | [] => .ok []
  | it :: rest =>
    match it.link with
    | none => newsItems rest
    | some link =>
      match newsThumbnail it.imgSrc with
      | .error e => .error e
      | .ok thumb =>
        match newsItems rest with
        | .error e => .error e
        | .ok rs =>
          .ok ({ url := link.href, title := link.text, content := it.snippet,
                 thumbnail := thumb, metadata := newsMetadata it link } :: rs)

/-- `bing_news.response` (bing_news.py lines 85-132). -/
def newsResponse : Option (List NewsItemDom) → Except PyErr (List NewsResult)
  | none => .error .parserError
  | some items => newsItems items

/-- `bing_news.time_map` (bing_news.py lines 38-42). -/
def time_map : List (String × String) :=
  [("day", "interval=\"4\""), ("week", "interval=\"7\""), ("month", "interval=\"9\"")]

/-- Query parameters assembled by `bing_news.request` (bing_news.py lines
54-82): pagination through `first` and the scroll counter `SFX`, the
optional market pair, and the `qft` time filter with the month code as
fallback for unmapped ranges.  A missing or empty `time_range` is falsy in
Python and emits no `qft`. -/
def newsQueryParams (query : String) (p : ReqParams) (tr : EngineTraits) :
    List (String × String) :=
  let engine_region := get_region tr p.searxng_locale
  let page := p.pageno - 1
  let base := [("q", query), ("InfiniteScroll", "1"),
    ("first", toString (page * 10 + 1)), ("SFX", toString page), ("form", "PTFTNR")]
  let base :=
    match get_locale_params engine_region with
    | none => base
    | some kv => base ++ [kv]
  match p.time_range with
  | none => base
  | some trg =>
    if trg = "" then base
    else base ++ [("qft", (List.lookup trg time_map).getD "interval=\"9\"")]

/-- URL assembled by `bing_news.request`. -/
def newsRequestUrl (query : String) (p : ReqParams) (tr : EngineTraits) : String :=
  "https://www.bing.com/news/infinitescrollajax?" ++ urlencodeParams (newsQueryParams query p tr)

/-! Bing videos engine (src/searx/engines/bing_videos.py). -/

/-- Left and right curly brace characters (written by code to keep JSON
sample strings readable). -/
def lbrace : Char := Char.ofNat 123

/-- Right curly brace. -/
def rbrace : Char := Char.ofNat 125

/-- Double-quote character. -/
def dquote : Char := Char.ofNat 34

/-- Scan a JSON string body up to the closing quote.  Escapes and control
characters are outside the modelled fragment and fail. -/
def jsonString : List Char → Option (List Char × List Char)
  | [] => none
  | c :: cs =>
    if c = dquote then some ([], cs)
    else if c.toNat = 92 ∨ c.toNat < 32 then none
    else (jsonString cs).map (fun p => (c :: p.1, p.2))

/-- Whitespace skipped by the JSON parser. -/
def jsonWs (c : Char) : Bool :=
  c.toNat = 32 ∨ c.toNat = 9 ∨ c.toNat = 10 ∨ c.toNat = 13

/-- Member loop for a flat JSON object; the fuel starts above the input
length, so a step that always consumes at least one character never runs
out on inputs the fragment accepts. -/
def jsonMembers (fuel : Nat) (l : List Char) (acc : List (String × String)) :
    Except PyErr (List (String × String)) :=
  match fuel with
  | 0 => .error .jsonError
  | fuel + 1 =>
    match l with
    | c :: cs =>
      if c = dquote then
        match jsonString cs with
        | none => .error .jsonError
        | some (key, rest1) =>
          match (rest1.dropWhile jsonWs) with
          | colon :: rest2 =>
            if colon = ':' then
              match rest2.dropWhile jsonWs with
              | q :: rest3 =>
                if q = dquote then
                  match jsonString rest3 with
                  | none => .error .jsonError
                  | some (val, rest4) =>
                    let acc := acc ++ [(String.mk key, String.mk val)]
                    match rest4.dropWhile jsonWs with
                    | [] => .error .jsonError
                    | d :: rest5 =>
                      if d = ',' then
                        jsonMembers fuel (rest5.dropWhile jsonWs) acc
                      else if d = rbrace then
                        if rest5.dropWhile jsonWs = [] then .ok acc
                        else .error .jsonError
                      else .error .jsonError
                else .error .jsonError
              | [] => .error .jsonError
            else .error .jsonError
          | [] => .error .jsonError
      else .error .jsonError
    | [] => .error .jsonError

/-- Modelled from the spec: Python's `json.loads` (standard library,
external to the repository), restricted to flat string-valued JSON objects
— the fragment the `vrhm` metadata blobs (`du`, `murl`, `vt`) inhabit.
Anything outside the fragment, in particular a structurally malformed
blob, is a JSONDecodeError. -/
def jsonLoads (s : String) : Except PyErr (List (String × String)) :=
  match s.data.dropWhile jsonWs with
  | b :: rest =>
    if b = lbrace then
      match rest.dropWhile jsonWs with
      | [] => .error .jsonError
      | d :: rest1 =>
        if d = rbrace then
          if rest1.dropWhile jsonWs = [] then .ok [] else .error .jsonError
        else jsonMembers (s.data.length + 1) (d :: rest1) []
    else .error .jsonError
  | [] => .error .jsonError

/-- Python dict access over the pair list a JSON object parses to: the
last binding of a duplicated key wins. -/
def dictGet (k : String) (d : List (String × String)) : Option String :=
  List.lookup k d.reverse

/-- One `div[id*=mc_vtvc_video]` block through the xpath queries of
`bing_videos.response`: the `vrhm` attribute nodes of its `vrhdata` divs,
the meta-block span texts, and the thumbnail image `src` nodes. -/
structure VideoBlockDom where
  vrhm : List String
  metaSpans : List String
  thumbSrcs : List String
deriving DecidableEq, Repr

/-- Record dictionary appended by `bing_videos.response` (the constant
`template` field is left out). -/
structure VideoResult where
  url : String
  thumbnail : String
  title : String
  content : String
deriving DecidableEq, Repr

/-- Result loop of `bing_videos.response` (bing_videos.py lines 76-90):
`[0]` on an empty node list raises an IndexError, `json.loads` raises on a
malformed blob, the `du` and `murl` subscripts raise a KeyError when
missing, and `vt` defaults to the empty string; any raise aborts the whole
parse. -/
def videoBlocks : List VideoBlockDom → Except PyErr (List VideoResult)
  | [] => .ok []
  | b :: rest =>
    match b.vrhm with
    | [] => .error .indexError
    | vstr :: _ =>
      match jsonLoads vstr with
      | .error e => .error e
      | .ok md =>
        let info := pyStrip (String.intercalate " - " b.metaSpans)
        match dictGet "du" md with
        | none => .error .keyError
        | some du =>
          let content := du ++ " - " ++ info
          match b.thumbSrcs with
          | [] => .error .indexError
          | tsrc :: _ =>
            match dictGet "murl" md with
            | none => .error .keyError
            | some murl =>
              match videoBlocks rest with
              | .error e => .error e
              | .ok rs =>
                .ok ({ url := murl, thumbnail := tsrc,
                       title := (dictGet "vt" md).getD "", content := content } :: rs)

/-- `bing_videos.response` (bing_videos.py lines 69-92). -/
def videoResponse : Option (List VideoBlockDom) → Except PyErr (List VideoResult)
  | none => .error .parserError
  | some bs => videoBlocks bs

/-! Helper lemmas. -/

theorem splitFirst_eq_none {sep : Char} {l : List Char} (h : sep ∉ l) :
    splitFirst sep l = none := by
  induction l with
  | nil => rfl
  | cons c cs ih =>
    simp only [List.mem_cons, not_or] at h
    simp only [splitFirst]
    rw [if_neg (fun hc => h.1 hc.symm), ih h.2]
    rfl

theorem splitFirst_append_not_mem {sep : Char} {xs ys : List Char} (h : sep ∉ xs) :
    splitFirst sep (xs ++ sep :: ys) = some (xs, ys) := by
  induction xs with
  | nil => simp [splitFirst]
  | cons c cs ih =>
    simp only [List.mem_cons, not_or] at h
    simp only [List.cons_append, splitFirst]
    rw [if_neg (fun hc => h.1 hc.symm)]
    simp only [List.append_eq]
    rw [ih h.2]
    rfl

theorem splitEvery_eq_single {sep : Char} {l : List Char} (h : sep ∉ l) :
    splitEvery sep l = [l] := by
  induction l with
  | nil => rfl
  | cons c cs ih =>
    simp only [List.mem_cons, not_or] at h
    simp only [splitEvery]
    rw [ih h.2]
    have hc : ¬ c = sep := fun hc => h.1 hc.symm
    simp [hc]

theorem unquotePlusF_id {fuel : Nat} {l : List Char} (hf : l.length ≤ fuel)
    (h : '%' ∉ l ∧ '+' ∉ l) : unquotePlusF fuel l = l := by
  induction fuel generalizing l with
  | zero =>
    cases l with
    | nil => rfl
    | cons c cs => simp at hf
  | succ fuel ih =>
    cases l with
    | nil => rfl
    | cons c cs =>
      simp only [List.mem_cons, not_or] at h
      simp only [unquotePlusF]
      rw [if_neg (fun hc => h.2.1 hc.symm), if_neg (fun hc => h.1.1 hc.symm),
        ih (by simp at hf; omega) ⟨h.1.2, h.2.2⟩]

theorem unquotePlus_id {l : List Char} (h : '%' ∉ l ∧ '+' ∉ l) :
    unquotePlus l = l :=
  unquotePlusF_id (Nat.le_refl _) h

theorem b64EncChar_spec (v : Nat) (hv : v < 64) :
    b64Val (b64EncChar v) = some v ∧ (b64EncChar v).toNat < 128
    ∧ (b64EncChar v).toNat ≠ 61 ∧ b64EncChar v ≠ '&' ∧ b64EncChar v ≠ '#'
    ∧ b64EncChar v ≠ '?' ∧ b64EncChar v ≠ '%' ∧ b64EncChar v ≠ '+'
    ∧ b64EncChar v ≠ '=' := by
  interval_cases v <;> exact ⟨rfl, by decide, by decide, by decide, by decide,
    by decide, by decide, by decide, by decide⟩

theorem b64urlEncode_alpha (bs : List Nat) (h : ∀ b ∈ bs, b < 256) :
    ∀ ch ∈ b64urlEncodeNoPad bs, ∃ v, v < 64 ∧ ch = b64EncChar v := by
  induction bs using b64urlEncodeNoPad.induct with
  | case1 => intro ch hch; simp [b64urlEncodeNoPad] at hch
  | case2 b0 =>
    intro ch hch
    have hb0 : b0 < 256 := h b0 (by simp)
    simp only [b64urlEncodeNoPad, List.mem_cons, List.mem_singleton] at hch
    rcases hch with h1 | h1 | h1
    · exact ⟨b0 / 4, by omega, h1⟩
    · exact ⟨b0 % 4 * 16, by omega, h1⟩
    · simp at h1
  | case3 b0 b1 =>
    intro ch hch
    have hb0 : b0 < 256 := h b0 (by simp)
    have hb1 : b1 < 256 := h b1 (by simp)
    simp only [b64urlEncodeNoPad, List.mem_cons, List.mem_singleton] at hch
    rcases hch with h1 | h1 | h1 | h1
    · exact ⟨b0 / 4, by omega, h1⟩
    · exact ⟨b0 % 4 * 16 + b1 / 16, by omega, h1⟩
    · exact ⟨b1 % 16 * 4, by omega, h1⟩
    · simp at h1
  | case4 b0 b1 b2 rest ih =>
    intro ch hch
    have hb0 : b0 < 256 := h b0 (by simp)
    have hb1 : b1 < 256 := h b1 (by simp)
    have hb2 : b2 < 256 := h b2 (by simp)
    simp only [b64urlEncodeNoPad, List.mem_cons] at hch
    rcases hch with h1 | h1 | h1 | h1 | h1
    · exact ⟨b0 / 4, by omega, h1⟩
    · exact ⟨b0 % 4 * 16 + b1 / 16, by omega, h1⟩
    · exact ⟨b1 % 16 * 4 + b2 / 64, by omega, h1⟩
    · exact ⟨b2 % 64, by omega, h1⟩
    · exact ih (fun b hb => h b (by simp [hb])) ch h1

theorem a2b_data0 (v : Nat) (hv : v < 64) (cs : List Char) (lc pads : Nat)
    (acc : List Nat) :
    a2bBase64 (b64EncChar v :: cs) 0 lc pads acc = a2bBase64 cs 1 v 0 acc := by
  have hs := b64EncChar_spec v hv
  simp only [a2bBase64]
  rw [if_neg hs.2.2.1, hs.1]

theorem a2b_data1 (v : Nat) (hv : v < 64) (cs : List Char) (lc pads : Nat)
    (acc : List Nat) :
    a2bBase64 (b64EncChar v :: cs) 1 lc pads acc =
      a2bBase64 cs 2 (v % 16) 0 ((lc * 4 + v / 16) :: acc) := by
  have hs := b64EncChar_spec v hv
  simp only [a2bBase64]
  rw [if_neg hs.2.2.1, hs.1]

theorem a2b_data2 (v : Nat) (hv : v < 64) (cs : List Char) (lc pads : Nat)
    (acc : List Nat) :
    a2bBase64 (b64EncChar v :: cs) 2 lc pads acc =
      a2bBase64 cs 3 (v % 4) 0 ((lc * 16 + v / 4) :: acc) := by
  have hs := b64EncChar_spec v hv
  simp only [a2bBase64]
  rw [if_neg hs.2.2.1, hs.1]

theorem a2b_data3 (v : Nat) (hv : v < 64) (cs : List Char) (lc pads : Nat)
    (acc : List Nat) :
    a2bBase64 (b64EncChar v :: cs) 3 lc pads acc =
      a2bBase64 cs 0 0 0 ((lc * 64 + v) :: acc) := by
  have hs := b64EncChar_spec v hv
  simp only [a2bBase64]
  rw [if_neg hs.2.2.1, hs.1]

theorem a2b_encode_aux (bs : List Nat) (h : ∀ b ∈ bs, b < 256) (acc : List Nat) :
    a2bBase64 (b64urlEncodeNoPad bs ++
      List.replicate ((4 - (b64urlEncodeNoPad bs).length % 4) % 4) (Char.ofNat 61))
      0 0 0 acc = .ok (acc.reverse ++ bs) := by
  induction bs using b64urlEncodeNoPad.induct generalizing acc with
  | case1 => simp [b64urlEncodeNoPad, a2bBase64]
  | case2 b0 =>
    have hb0 : b0 < 256 := h b0 (by simp)
    simp only [b64urlEncodeNoPad, List.length_cons, List.length_nil]
    norm_num [List.replicate]
    rw [a2b_data0 _ (by omega), a2b_data1 _ (by omega)]
    have e1 : b0 / 4 * 4 + b0 % 4 * 16 / 16 = b0 := by omega
    rw [e1]
    simp [a2bBase64]
  | case3 b0 b1 =>
    have hb0 : b0 < 256 := h b0 (by simp)
    have hb1 : b1 < 256 := h b1 (by simp)
    simp only [b64urlEncodeNoPad, List.length_cons, List.length_nil]
    norm_num [List.replicate]
    rw [a2b_data0 _ (by omega), a2b_data1 _ (by omega), a2b_data2 _ (by omega)]
    have e1 : b0 / 4 * 4 + (b0 % 4 * 16 + b1 / 16) / 16 = b0 := by omega
    have e2 : (b0 % 4 * 16 + b1 / 16) % 16 * 16 + b1 % 16 * 4 / 4 = b1 := by omega
    rw [e1, e2]
    simp [a2bBase64]
  | case4 b0 b1 b2 rest ih =>
    have hb0 : b0 < 256 := h b0 (by simp)
    have hb1 : b1 < 256 := h b1 (by simp)
    have hb2 : b2 < 256 := h b2 (by simp)
    simp only [b64urlEncodeNoPad, List.length_cons]
    have hpad : (4 - ((b64urlEncodeNoPad rest).length + 1 + 1 + 1 + 1) % 4) % 4
        = (4 - (b64urlEncodeNoPad rest).length % 4) % 4 := by omega
    rw [hpad, List.cons_append, List.cons_append, List.cons_append, List.cons_append,
      a2b_data0 _ (by omega), a2b_data1 _ (by omega), a2b_data2 _ (by omega),
      a2b_data3 _ (by omega)]
    have e1 : b0 / 4 * 4 + (b0 % 4 * 16 + b1 / 16) / 16 = b0 := by omega
    have e2 : (b0 % 4 * 16 + b1 / 16) % 16 * 16 + (b1 % 16 * 4 + b2 / 64) / 4 = b1 := by
      omega
    have e3 : (b1 % 16 * 4 + b2 / 64) % 4 * 64 + b2 % 64 = b2 := by omega
    rw [e1, e2, e3, ih (fun b hb => h b (by simp [hb]))]
    simp

theorem urlsafeB64decode_encode (bs : List Nat) (h : ∀ b ∈ bs, b < 256) :
    urlsafeB64decode (b64urlEncodeNoPad bs ++
      List.replicate ((4 - (b64urlEncodeNoPad bs).length % 4) % 4) (Char.ofNat 61))
      = .ok bs := by
  rw [urlsafeB64decode]
  rw [if_neg]
  · have := a2b_encode_aux bs h []
    simpa using this
  · simp only [List.any_eq_true, decide_eq_true_eq, not_exists, not_and]
    intro c hc
    rcases List.mem_append.mp hc with hm | hm
    · obtain ⟨v, hv, rfl⟩ := b64urlEncode_alpha bs h c hm
      have := (b64EncChar_spec v hv).2.1
      omega
    · have hce : c = Char.ofNat 61 := List.eq_of_mem_replicate hm
      rw [hce]
      decide

theorem utf8Encode_ascii (l : List Char) (h : ∀ ch ∈ l, ch.toNat < 128) :
    ((l.map utf8EncodeChar).flatten) = l.map Char.toNat := by
  induction l with
  | nil => rfl
  | cons c cs ih =>
    have hc : c.toNat < 128 := h c (by simp)
    simp only [List.map_cons, List.flatten_cons, utf8EncodeChar, if_pos hc]
    rw [ih (fun ch hch => h ch (by simp [hch]))]
    rfl

theorem utf8DecodeReplaceF_ascii (fuel : Nat) (l : List Char)
    (hf : l.length ≤ fuel) (h : ∀ ch ∈ l, ch.toNat < 128) :
    utf8DecodeReplaceF fuel (l.map Char.toNat) = l := by
  induction fuel generalizing l with
  | zero =>
    cases l with
    | nil => rfl
    | cons c cs => simp at hf
  | succ fuel ih =>
    cases l with
    | nil => rfl
    | cons c cs =>
      have hc : c.toNat < 128 := h c (by simp)
      simp only [List.map_cons, utf8DecodeReplaceF, if_pos hc, Char.ofNat_toNat]
      rw [ih cs (by simp at hf; omega) (fun ch hch => h ch (by simp [hch]))]

theorem utf8DecodeReplace_ascii (l : List Char) (h : ∀ ch ∈ l, ch.toNat < 128) :
    utf8DecodeReplace (l.map Char.toNat) = l := by
  rw [utf8DecodeReplace]
  exact utf8DecodeReplaceF_ascii _ l (by simp) h

theorem processHref_roundtrip (X : String) (hX : ∀ ch ∈ X.data, ch.toNat < 128) :
    processHref ("https://www.bing.com/ck/a?u=a1" ++
      String.mk (b64urlEncodeNoPad (utf8Encode X))) = .ok X := by
  have hbytes : ∀ b ∈ utf8Encode X, b < 256 := by
    intro b hb
    rw [utf8Encode, utf8Encode_ascii X.data hX] at hb
    obtain ⟨ch, hch, rfl⟩ := List.mem_map.mp hb
    have := hX ch hch
    omega
  set E := b64urlEncodeNoPad (utf8Encode X) with hE
  have halpha := b64urlEncode_alpha (utf8Encode X) hbytes
  rw [← hE] at halpha
  have hchar : ∀ ch ∈ E, ch ≠ '&' ∧ ch ≠ '#' ∧ ch ≠ '?' ∧ ch ≠ '%' ∧ ch ≠ '+'
      ∧ ch ≠ '=' := by
    intro ch hch
    obtain ⟨v, hv, rfl⟩ := halpha ch hch
    have hs := b64EncChar_spec v hv
    exact ⟨hs.2.2.2.1, hs.2.2.2.2.1, hs.2.2.2.2.2.1, hs.2.2.2.2.2.2.1,
      hs.2.2.2.2.2.2.2.1, hs.2.2.2.2.2.2.2.2⟩
  have hdata : ("https://www.bing.com/ck/a?u=a1" ++ String.mk E).data =
      "https://www.bing.com/ck/a".data ++ '?' :: ('u' :: '=' :: 'a' :: '1' :: E) := by
    rw [String.data_append]
    have hlit : ("https://www.bing.com/ck/a?u=a1").data =
        "https://www.bing.com/ck/a".data ++ '?' :: ('u' :: '=' :: 'a' :: '1' :: []) := by
      decide
    rw [hlit]
    simp [List.append_assoc]
  have hck : ckForm <+: ("https://www.bing.com/ck/a?u=a1" ++ String.mk E).data := by
    rw [hdata]
    have : ckForm ++ ('u' :: '=' :: 'a' :: '1' :: E) =
        "https://www.bing.com/ck/a".data ++ '?' :: ('u' :: '=' :: 'a' :: '1' :: E) := by
      have : ckForm = "https://www.bing.com/ck/a".data ++ ['?'] := by decide
      rw [this]
      simp
    rw [← this]
    exact List.prefix_append _ _
  have hq : urlQuery ("https://www.bing.com/ck/a?u=a1" ++ String.mk E).data =
      'u' :: '=' :: 'a' :: '1' :: E := by
    rw [hdata, urlQuery]
    have hnohash : '#' ∉ "https://www.bing.com/ck/a".data ++
        '?' :: ('u' :: '=' :: 'a' :: '1' :: E) := by
      intro hmem
      rcases List.mem_append.mp hmem with hm | hm
      · revert hm; decide
      · simp only [List.mem_cons] at hm
        rcases hm with h1 | h1 | h1 | h1 | h1 | h1
        · exact absurd h1 (by decide)
        · exact absurd h1 (by decide)
        · exact absurd h1 (by decide)
        · exact absurd h1 (by decide)
        · exact absurd h1 (by decide)
        · exact (hchar _ h1).2.1 rfl
    rw [splitFirst_eq_none hnohash]
    rw [splitFirst_append_not_mem (by decide)]
  have hqsl : parseQsl ('u' :: '=' :: 'a' :: '1' :: E) = [(['u'], 'a' :: '1' :: E)] := by
    rw [parseQsl]
    have hnoamp : '&' ∉ ('u' :: '=' :: 'a' :: '1' :: E) := by
      intro hmem
      simp only [List.mem_cons] at hmem
      rcases hmem with h1 | h1 | h1 | h1 | h1
      · exact absurd h1 (by decide)
      · exact absurd h1 (by decide)
      · exact absurd h1 (by decide)
      · exact absurd h1 (by decide)
      · exact (hchar _ h1).1 rfl
    rw [splitEvery_eq_single hnoamp]
    have hsplit : splitFirst '=' ('u' :: '=' :: 'a' :: '1' :: E) =
        some (['u'], 'a' :: '1' :: E) := by
      have : ('u' :: '=' :: 'a' :: '1' :: E) = ['u'] ++ '=' :: ('a' :: '1' :: E) := rfl
      rw [this, splitFirst_append_not_mem (by decide)]
    simp only [List.filterMap, hsplit]
    have hval : unquotePlus ('a' :: '1' :: E) = 'a' :: '1' :: E := by
      apply unquotePlus_id
      constructor
      · intro hmem
        simp only [List.mem_cons] at hmem
        rcases hmem with h1 | h1 | h1
        · exact absurd h1 (by decide)
        · exact absurd h1 (by decide)
        · exact (hchar _ h1).2.2.2.1 rfl
      · intro hmem
        simp only [List.mem_cons] at hmem
        rcases hmem with h1 | h1 | h1
        · exact absurd h1 (by decide)
        · exact absurd h1 (by decide)
        · exact (hchar _ h1).2.2.2.2.1 rfl
    rw [if_neg (by simp)]
    rw [hval]
    rfl
  have hck' : ckForm.isPrefixOf
      ("https://www.bing.com/ck/a?u=a1" ++ String.mk E).data = true :=
    List.isPrefixOf_iff_prefix.mpr hck
  rw [processHref, if_pos hck', hq, hqsl]
  have hfind : qsFirst ['u'] [(['u'], 'a' :: '1' :: E)] = some ('a' :: '1' :: E) := by
    simp [qsFirst, List.find?]
  rw [hfind]
  simp only []
  split
  · have hdrop : ('a' :: '1' :: E).drop 2 = E := rfl
    rw [hdrop, hE, urlsafeB64decode_encode (utf8Encode X) hbytes]
    show Except.ok (String.mk (utf8DecodeReplace (utf8Encode X))) = Except.ok X
    rw [utf8Encode, utf8Encode_ascii X.data hX, utf8DecodeReplace_ascii X.data hX]
  · next hcon =>
    exact absurd (List.isPrefixOf_iff_prefix.mpr ⟨E, rfl⟩) hcon

/-- A web item whose redirect-decode step succeeds (vacuous when the item
has no link). -/
def webItemOk (it : BAlgoItem) : Prop :=
  ∀ l, it.link = some l → ∃ u, processHref (l.href.getD "") = .ok u

/-- A news item whose thumbnail image, when present, carries a src
attribute. -/
def newsItemOk (it : NewsItemDom) : Prop := it.imgSrc ≠ some none

/-- A video block that parses: a vrhm blob is present and parses to a
dictionary holding du and murl, and a thumbnail src is present. -/
def videoBlockOk (b : VideoBlockDom) : Prop :=
  ∃ v vs md, b.vrhm = v :: vs ∧ jsonLoads v = .ok md
    ∧ (dictGet "du" md).isSome ∧ (dictGet "murl" md).isSome ∧ b.thumbSrcs ≠ []


theorem webItems_ok (items : List BAlgoItem) (h : ∀ it ∈ items, webItemOk it) :
    ∃ rs, webItems items = .ok rs := by
  induction items with
  | nil => exact ⟨[], rfl⟩
  | cons it rest ih =>
    obtain ⟨rs, hrs⟩ := ih (fun x hx => h x (List.mem_cons_of_mem it hx))
    cases hl : it.link with
    | none => exact ⟨rs, by simp only [webItems, hl]; exact hrs⟩
    | some link =>
      by_cases hskip : link.href.getD "" = "" ∨ link.text = ""
      · refine ⟨rs, ?_⟩
        simp only [webItems, hl]
        rw [if_pos hskip]
        exact hrs
      · obtain ⟨u, hu⟩ := h it (List.mem_cons_self it rest) link hl
        refine ⟨.normal u link.text it.content :: rs, ?_⟩
        simp only [webItems, hl]
        rw [if_neg hskip, hu, hrs]

theorem webItems_no_count (items : List BAlgoItem) (rs : List WebResult)
    (h : webItems items = .ok rs) : ∀ n, WebResult.count n ∉ rs := by
  induction items generalizing rs with
  | nil =>
    simp only [webItems] at h
    cases h
    simp
  | cons it rest ih =>
    cases hl : it.link with
    | none =>
      simp only [webItems, hl] at h
      exact ih rs h
    | some link =>
      simp only [webItems, hl] at h
      by_cases hskip : link.href.getD "" = "" ∨ link.text = ""
      · rw [if_pos hskip] at h; exact ih rs h
      · rw [if_neg hskip] at h
        cases hp : processHref (link.href.getD "") with
        | error e => rw [hp] at h; cases h
        | ok u =>
          rw [hp] at h
          simp only [] at h
          cases hr : webItems rest with
          | error e => rw [hr] at h; cases h
          | ok rs0 =>
            rw [hr] at h
            simp only [] at h
            cases h
            intro n hmem
            rcases List.mem_cons.mp hmem with h1 | h1
            · cases h1
            · exact ih rs0 hr n h1

theorem webItems_normal_origin (items : List BAlgoItem) (rs : List WebResult)
    (h : webItems items = .ok rs) :
    ∀ u t c, WebResult.normal u t c ∈ rs →
      t ≠ "" ∧ ∃ href, href ≠ "" ∧ processHref href = .ok u := by
  induction items generalizing rs with
  | nil =>
    simp only [webItems] at h
    cases h
    simp
  | cons it rest ih =>
    cases hl : it.link with
    | none =>
      simp only [webItems, hl] at h
      exact ih rs h
    | some link =>
      simp only [webItems, hl] at h
      by_cases hskip : link.href.getD "" = "" ∨ link.text = ""
      · rw [if_pos hskip] at h; exact ih rs h
      · rw [if_neg hskip] at h
        push_neg at hskip
        cases hp : processHref (link.href.getD "") with
        | error e => rw [hp] at h; cases h
        | ok u0 =>
          rw [hp] at h
          simp only [] at h
          cases hr : webItems rest with
          | error e => rw [hr] at h; cases h
          | ok rs0 =>
            rw [hr] at h
            simp only [] at h
            cases h
            intro u t c hmem
            rcases List.mem_cons.mp hmem with h1 | h1
            · cases h1
              exact ⟨hskip.2, link.href.getD "", hskip.1, hp⟩
            · exact ih rs0 hr u t c h1

theorem newsItems_ok (items : List NewsItemDom) (h : ∀ it ∈ items, newsItemOk it) :
    ∃ rs, newsItems items = .ok rs := by
  induction items with
  | nil => exact ⟨[], rfl⟩
  | cons it rest ih =>
    obtain ⟨rs, hrs⟩ := ih (fun x hx => h x (List.mem_cons_of_mem it hx))
    cases hl : it.link with
    | none => exact ⟨rs, by simp only [newsItems, hl]; exact hrs⟩
    | some link =>
      have himg := h it (List.mem_cons_self it rest)
      have hthumb : ∃ th, newsThumbnail it.imgSrc = .ok th := by
        rw [newsItemOk] at himg
        cases hsrc : it.imgSrc with
        | none => exact ⟨none, rfl⟩
        | some srcOpt =>
          cases srcOpt with
          | none => exact absurd hsrc himg
          | some s =>
            rw [newsThumbnail]
            by_cases hstart : "https://www.bing.com".data.isPrefixOf s.data = true
            · rw [if_neg (by simp [hstart])]
              exact ⟨some s, rfl⟩
            · rw [if_pos (by simpa using hstart)]
              exact ⟨some ("https://www.bing.com/" ++ s), rfl⟩
      obtain ⟨th, hth⟩ := hthumb
      refine ⟨⟨link.href, link.text, it.snippet, th, newsMetadata it link⟩ :: rs, ?_⟩
      simp only [newsItems, hl]
      rw [hth, hrs]

theorem videoBlocks_ok (bs : List VideoBlockDom) (h : ∀ b ∈ bs, videoBlockOk b) :
    ∃ rs, videoBlocks bs = .ok rs := by
  induction bs with
  | nil => exact ⟨[], rfl⟩
  | cons b rest ih =>
    obtain ⟨rs, hrs⟩ := ih (fun x hx => h x (List.mem_cons_of_mem b hx))
    obtain ⟨v, vs, md, hv, hjson, hdu, hmurl, hth⟩ := h b (List.mem_cons_self b rest)
    obtain ⟨du, hdu'⟩ := Option.isSome_iff_exists.mp hdu
    obtain ⟨murl, hmurl'⟩ := Option.isSome_iff_exists.mp hmurl
    cases hts : b.thumbSrcs with
    | nil => exact absurd hts hth
    | cons tsrc trest =>
      refine ⟨⟨murl, tsrc, (dictGet "vt" md).getD "",
        du ++ " - " ++ pyStrip (String.intercalate " - " b.metaSpans)⟩ :: rs, ?_⟩
      simp only [videoBlocks, hv]
      rw [hjson]
      simp only [hdu']
      rw [hts]
      simp only [hmurl']
      rw [hrs]

theorem videoBlocks_prefix_error (pre : List VideoBlockDom) (b : VideoBlockDom)
    (post : List VideoBlockDom) (hpre : ∀ x ∈ pre, videoBlockOk x)
    (hb : ∃ v vs, b.vrhm = v :: vs ∧ jsonLoads v = .error .jsonError) :
    videoBlocks (pre ++ b :: post) = .error .jsonError := by
  induction pre with
  | nil =>
    obtain ⟨v, vs, hv, hjson⟩ := hb
    rw [List.nil_append]
    simp only [videoBlocks, hv]
    rw [hjson]
  | cons x rest ih =>
    obtain ⟨v, vs, md, hv, hjson, hdu, hmurl, hth⟩ := hpre x (List.mem_cons_self x rest)
    obtain ⟨du, hdu'⟩ := Option.isSome_iff_exists.mp hdu
    obtain ⟨murl, hmurl'⟩ := Option.isSome_iff_exists.mp hmurl
    cases hts : x.thumbSrcs with
    | nil => exact absurd hts hth
    | cons tsrc trest =>
      rw [List.cons_append]
      simp only [videoBlocks, hv]
      rw [hjson]
      simp only [hdu']
      rw [hts]
      simp only [hmurl']
      rw [ih (fun y hy => hpre y (List.mem_cons_of_mem x hy))]

/-! Claim theorems. -/

/-- C1 counterexample: on a well-formed HTML body whose single video block
carries a malformed vrhm JSON blob, the video parser raises a
JSONDecodeError — an exception other than the ParseError the claim allows
— instead of returning an empty sequence. -/
theorem c1_counterexample :
    videoResponse (some [⟨["\x7b"], [], ["x.jpg"]⟩]) = .error .jsonError
    ∧ PyErr.jsonError ≠ PyErr.parserError := by
  exact ⟨rfl, by decide⟩

/-- C1 (amended): each parser raises ParseError on a structurally
non-HTML body; on parsed HTML it is total only item-wise — the web parser
succeeds when every item's click-tracking payload decodes, the news
parser when every thumbnail image carries a src attribute, and the video
parser when every block has a parsing vrhm blob with du and murl keys and
a thumbnail src; outside these conditions the parsers raise further
exceptions (base64, attribute, JSON, index and key errors). -/
theorem c1_amended :
    (webResponse none = .error .parserError
      ∧ newsResponse none = .error .parserError
      ∧ videoResponse none = .error .parserError)
    ∧ (∀ dom : WebDom, (∀ it ∈ dom.algoItems, webItemOk it) →
        ∃ rs, webResponse (some dom) = .ok rs)
    ∧ (∀ items : List NewsItemDom, (∀ it ∈ items, newsItemOk it) →
        ∃ rs, newsResponse (some items) = .ok rs)
    ∧ (∀ bs : List VideoBlockDom, (∀ b ∈ bs, videoBlockOk b) →
        ∃ rs, videoResponse (some bs) = .ok rs) := by
  refine ⟨⟨rfl, rfl, rfl⟩, ?_, ?_, ?_⟩
  · intro dom hw
    obtain ⟨rs, hrs⟩ := webItems_ok dom.algoItems hw
    by_cases h1 : rs = []
    · exact ⟨rs, by simp only [webResponse, hrs]; rw [if_pos h1]⟩
    · by_cases h2 : dom.sbCountText.data.filter Char.isDigit = []
      · refine ⟨rs, ?_⟩
        simp only [webResponse, hrs]
        rw [if_neg h1, if_pos h2]
      · refine ⟨rs ++ [.count (natOfDigits (dom.sbCountText.data.filter Char.isDigit))], ?_⟩
        simp only [webResponse, hrs]
        rw [if_neg h1, if_neg h2]
  · intro items hn
    obtain ⟨rs, hrs⟩ := newsItems_ok items hn
    exact ⟨rs, by rw [newsResponse]; exact hrs⟩
  · intro bs hv
    obtain ⟨rs, hrs⟩ := videoBlocks_ok bs hv
    exact ⟨rs, by rw [videoResponse]; exact hrs⟩

/-- C1 witness: the amended totality statement applied to concrete
well-formed inputs of all three parsers. -/
theorem c1_witness :
    (∃ rs, webResponse (some ⟨[⟨some ⟨some "https://example.org/a", "T"⟩, "c"⟩],
      "40 results"⟩) = .ok rs)
    ∧ (∃ rs, newsResponse (some [⟨some ⟨some "https://n", "T", none⟩, "s",
      none, none⟩]) = .ok rs)
    ∧ (∃ rs, videoResponse (some [⟨["\x7b\"du\": \"3:00\", \"murl\": \"https://example.com/v\", \"vt\": \"T\"\x7d"],
      ["chan"], ["th.jpg"]⟩]) = .ok rs) := by
  refine ⟨c1_amended.2.1 _ ?_, c1_amended.2.2.1 _ ?_, c1_amended.2.2.2 _ ?_⟩
  · intro it hit
    simp only [List.mem_singleton] at hit
    subst hit
    intro l hl
    cases hl
    exact ⟨"https://example.org/a", rfl⟩
  · intro it hit
    simp only [List.mem_singleton] at hit
    subst hit
    rw [newsItemOk]
    simp
  · intro b hb
    simp only [List.mem_singleton] at hb
    subst hb
    exact ⟨_, _, _, rfl, rfl, by decide, by decide, by simp⟩

/-- C2 counterexample: a response with a malformed-JSON block followed by
a fully well-formed sibling block makes the video parser raise, returning
no record at all for the sibling, contrary to the claimed per-item
isolation. -/
theorem c2_counterexample :
    videoResponse (some [⟨["\x7b"], [], ["x.jpg"]⟩,
      ⟨["\x7b\"du\": \"3:00\", \"murl\": \"https://example.com/v\", \"vt\": \"T\"\x7d"],
        ["chan"], ["th.jpg"]⟩]) = .error .jsonError
    ∧ videoResponse (some
      [⟨["\x7b\"du\": \"3:00\", \"murl\": \"https://example.com/v\", \"vt\": \"T\"\x7d"],
        ["chan"], ["th.jpg"]⟩]) =
      .ok [⟨"https://example.com/v", "th.jpg", "T", "3:00 - chan"⟩] := by
  exact ⟨rfl, rfl⟩

/-- C2 (amended): a block whose vrhm JSON blob fails to parse aborts the
entire video parse with the JSON error — no record is returned for any
sibling block; per-item failures are not isolated. -/
theorem c2_amended (pre : List VideoBlockDom) (b : VideoBlockDom)
    (post : List VideoBlockDom) (hpre : ∀ x ∈ pre, videoBlockOk x)
    (hb : ∃ v vs, b.vrhm = v :: vs ∧ jsonLoads v = .error .jsonError) :
    videoResponse (some (pre ++ b :: post)) = .error .jsonError := by
  rw [videoResponse]
  exact videoBlocks_prefix_error pre b post hpre hb

/-- C2 witness: the amended abort statement applied to a concrete response
holding one well-formed block before the malformed one. -/
theorem c2_witness :
    videoResponse (some
      [⟨["\x7b\"du\": \"3:00\", \"murl\": \"https://example.com/v\", \"vt\": \"T\"\x7d"],
        ["chan"], ["th.jpg"]⟩, ⟨["\x7b"], [], ["x.jpg"]⟩]) = .error .jsonError := by
  refine c2_amended
    [⟨["\x7b\"du\": \"3:00\", \"murl\": \"https://example.com/v\", \"vt\": \"T\"\x7d"],
      ["chan"], ["th.jpg"]⟩] ⟨["\x7b"], [], ["x.jpg"]⟩ [] ?_ ⟨"\x7b", [], rfl, rfl⟩
  intro x hx
  simp only [List.mem_singleton] at hx
  subst hx
  exact ⟨_, _, _, rfl, rfl, by decide, by decide, by simp⟩

/-- C3 counterexample: the news parser returns a record whose url is
missing and whose title is empty for an item whose title anchor has no
href attribute and no text, instead of dropping it. -/
theorem c3_counterexample :
    newsResponse (some [⟨some ⟨none, "", none⟩, "", none, none⟩]) =
      .ok [⟨none, "", "", none, ""⟩] := by
  exact rfl

/-- C3 (amended): the web parser drops items with an empty href or title,
so each of its normal records has a non-empty title and a url produced by
the click-tracking decode from a non-empty href; the news and video
parsers do not enforce the invariant (the counterexample shows a news
record with no url and an empty title). -/
theorem c3_amended (dom : WebDom) (rs : List WebResult)
    (h : webResponse (some dom) = .ok rs) :
    ∀ u t c, WebResult.normal u t c ∈ rs →
      t ≠ "" ∧ ∃ href, href ≠ "" ∧ processHref href = .ok u := by
  cases hw : webItems dom.algoItems with
  | error e =>
    simp only [webResponse, hw] at h
    cases h
  | ok ns =>
    simp only [webResponse, hw] at h
    by_cases h1 : ns = []
    · rw [if_pos h1] at h
      cases h
      exact webItems_normal_origin dom.algoItems _ hw
    · rw [if_neg h1] at h
      by_cases h2 : dom.sbCountText.data.filter Char.isDigit = []
      · rw [if_pos h2] at h
        cases h
        exact webItems_normal_origin dom.algoItems _ hw
      · rw [if_neg h2] at h
        cases h
        intro u t c hmem
        rcases List.mem_append.mp hmem with h3 | h3
        · exact webItems_normal_origin dom.algoItems ns hw u t c h3
        · simp only [List.mem_singleton] at h3
          cases h3

/-- C3 witness: the amended web-parser invariant applied to a concrete
response with one normal record. -/
theorem c3_witness :
    ("Title" : String) ≠ ""
    ∧ ∃ href, href ≠ "" ∧ processHref href = .ok "https://example.org/a" := by
  exact c3_amended ⟨[⟨some ⟨some "https://example.org/a", "Title"⟩, "s"⟩], ""⟩
    [.normal "https://example.org/a" "Title" "s"] rfl
    "https://example.org/a" "Title" "s" (by simp)

/-- C4 counterexample: a click-tracking href whose u parameter carries the
malformed payload "a1A" (one data character) makes the web parser raise a
binascii error instead of leaving the tracking URL unchanged. -/
theorem c4_counterexample :
    webResponse (some ⟨[⟨some ⟨some "https://www.bing.com/ck/a?u=a1A", "T"⟩, ""⟩], ""⟩) =
      .error .binasciiError := by
  exact rfl

/-- C4 (amended): a click-tracking href with a missing u parameter or a u
value lacking the a1 tag is emitted unchanged; a malformed base64url
payload, however, raises (binascii or ValueError) instead of being
tolerated. -/
theorem c4_amended (href title c : String)
    (hck : ckForm.isPrefixOf href.data = true)
    (hu : qsFirst ['u'] (parseQsl (urlQuery href.data)) = none
      ∨ ∃ v, qsFirst ['u'] (parseQsl (urlQuery href.data)) = some v
          ∧ ['a', '1'].isPrefixOf v = false)
    (hh : href ≠ "") (ht : title ≠ "") (items : List BAlgoItem) (rs : List WebResult)
    (hrest : webItems items = .ok rs) :
    webItems (⟨some ⟨some href, title⟩, c⟩ :: items) =
      .ok (.normal href title c :: rs) := by
  have hp : processHref href = .ok href := by
    rw [processHref, if_pos hck]
    rcases hu with hu | ⟨v, hv, hpre⟩
    · rw [hu]
    · rw [hv]
      simp only []
      rw [if_neg (by simp [hpre])]
  simp only [webItems, Option.getD]
  rw [if_neg (by simp [hh, ht]), hp, hrest]

/-- C4 witness: the amended pass-through applied to a tracking href with
no u parameter at all. -/
theorem c4_witness :
    webItems [⟨some ⟨some "https://www.bing.com/ck/a?x=1", "T"⟩, "c"⟩] =
      .ok [.normal "https://www.bing.com/ck/a?x=1" "T" "c"] := by
  exact c4_amended "https://www.bing.com/ck/a?x=1" "T" "c" (by decide)
    (Or.inl (by decide)) (by decide) (by decide) [] [] rfl

/-- C5 counterexample: for a news thumbnail src "/th?id=abc" the emitted
thumbnail is "https://www.bing.com//th?id=abc" — the code prepends the
origin plus a slash — and not the claimed "https://www.bing.com/th?id=abc". -/
theorem c5_counterexample :
    newsResponse (some [⟨some ⟨some "https://n", "T", none⟩, "",
      none, some (some "/th?id=abc")⟩]) =
      .ok [⟨some "https://n", "T", "", some "https://www.bing.com//th?id=abc", ""⟩]
    ∧ (some "https://www.bing.com//th?id=abc" : Option String) ≠
      some "https://www.bing.com/th?id=abc" := by
  exact ⟨rfl, by decide⟩

/-- C5 (amended): a news thumbnail src that does not start with the
provider origin gets the origin plus a slash prepended (yielding a double
slash for root-relative paths); a src starting with the origin is passed
unchanged; an item with no thumbnail element keeps thumbnail None; an
image element lacking a src raises an AttributeError. -/
theorem c5_amended (s : String) (lnk : NewsLink) (snip : String)
    (items : List NewsItemDom) (rs : List NewsResult)
    (hrest : newsItems items = .ok rs) :
    ("https://www.bing.com".data.isPrefixOf s.data = false →
      newsItems (⟨some lnk, snip, none, some (some s)⟩ :: items) =
        .ok (⟨lnk.href, lnk.text, snip, some ("https://www.bing.com/" ++ s), ""⟩ :: rs))
    ∧ ("https://www.bing.com".data.isPrefixOf s.data = true →
      newsItems (⟨some lnk, snip, none, some (some s)⟩ :: items) =
        .ok (⟨lnk.href, lnk.text, snip, some s, ""⟩ :: rs))
    ∧ (newsItems (⟨some lnk, snip, none, none⟩ :: items) =
        .ok (⟨lnk.href, lnk.text, snip, none, ""⟩ :: rs))
    ∧ newsItems (⟨some lnk, snip, none, some none⟩ :: items) =
        .error .attributeError := by
  refine ⟨?_, ?_, ?_, ?_⟩
  · intro hs
    simp only [newsItems, newsThumbnail]
    rw [if_pos (by simp [hs]), hrest]
    rfl
  · intro hs
    simp only [newsItems, newsThumbnail]
    rw [if_neg (by simp [hs]), hrest]
    rfl
  · simp only [newsItems, newsThumbnail]
    rw [hrest]
    rfl
  · simp only [newsItems, newsThumbnail]

/-- C5 witness: the amended thumbnail normalization applied to the spec's
own example src values. -/
theorem c5_witness :
    newsItems [⟨some ⟨some "https://n", "T", none⟩, "", none,
      some (some "/th?id=abc")⟩] =
      .ok [⟨some "https://n", "T", "", some "https://www.bing.com//th?id=abc", ""⟩]
    ∧ newsItems [⟨some ⟨some "https://n", "T", none⟩, "", none,
      some (some "https://www.bing.com/th?id=abc")⟩] =
      .ok [⟨some "https://n", "T", "", some "https://www.bing.com/th?id=abc", ""⟩] := by
  constructor
  · exact (c5_amended "/th?id=abc" ⟨some "https://n", "T", none⟩ "" [] [] rfl).1
      (by decide)
  · exact (c5_amended "https://www.bing.com/th?id=abc" ⟨some "https://n", "T", none⟩
      "" [] [] rfl).2.1 (by decide)

/-- C6: embedding any ASCII target URL X as u=a1 followed by its unpadded
base64url encoding in a click-tracking href makes the web parser emit a
record whose url is exactly X — the decode step is a left inverse of the
no-padding base64url encode. -/
theorem c6_redirect_roundtrip (X : String) (hX : ∀ ch ∈ X.data, ch.toNat < 128)
    (title c : String) (ht : title ≠ "") :
    webResponse (some ⟨[⟨some ⟨some ("https://www.bing.com/ck/a?u=a1" ++
      String.mk (b64urlEncodeNoPad (utf8Encode X))), title⟩, c⟩], ""⟩) =
      .ok [.normal X title c] := by
  have hp := processHref_roundtrip X hX
  have hhref : ("https://www.bing.com/ck/a?u=a1" ++
      String.mk (b64urlEncodeNoPad (utf8Encode X))) ≠ "" := by
    intro hcon
    have hdata : ("https://www.bing.com/ck/a?u=a1" ++
        String.mk (b64urlEncodeNoPad (utf8Encode X))).data = [] := by
      rw [hcon]
    rw [String.data_append] at hdata
    exact absurd (List.append_eq_nil.mp hdata).1 (by decide)
  simp only [webResponse, webItems, Option.getD]
  rw [if_neg (by simp [hhref, ht]), hp]
  simp only []
  rw [if_neg (by simp)]
  rw [if_pos (by decide)]

/-- C6 witness: the round trip at the spec's example URL. -/
theorem c6_witness :
    webResponse (some ⟨[⟨some ⟨some ("https://www.bing.com/ck/a?u=a1" ++
      String.mk (b64urlEncodeNoPad (utf8Encode "https://example.com/page"))), "T"⟩,
      "c"⟩], ""⟩) = .ok [.normal "https://example.com/page" "T" "c"] := by
  exact c6_redirect_roundtrip "https://example.com/page" (by decide) "T" "c" (by decide)

/-- C7: the web parser appends the synthetic number-of-results record
exactly when at least one normal item was extracted and the banner text
holds a digit, with the count read from the digit-stripped banner; with no
extracted items the result is the empty sequence with no summary. -/
theorem c7_summary (dom : WebDom) (ns : List WebResult)
    (h : webItems dom.algoItems = .ok ns) :
    (∀ n, WebResult.count n ∉ ns)
    ∧ (ns ≠ [] ∧ dom.sbCountText.data.filter Char.isDigit ≠ [] →
      webResponse (some dom) =
        .ok (ns ++ [.count (natOfDigits (dom.sbCountText.data.filter Char.isDigit))]))
    ∧ (ns = [] ∨ dom.sbCountText.data.filter Char.isDigit = [] →
      webResponse (some dom) = .ok ns)
    ∧ (ns = [] → webResponse (some dom) = .ok []) := by
  refine ⟨webItems_no_count _ _ h, ?_, ?_, ?_⟩
  · rintro ⟨h1, h2⟩
    simp only [webResponse, h]
    rw [if_neg h1, if_neg h2]
  · intro h12
    rcases h12 with h1 | h2
    · simp only [webResponse, h]
      rw [if_pos h1]
    · by_cases h1 : ns = []
      · simp only [webResponse, h]
        rw [if_pos h1]
      · simp only [webResponse, h]
        rw [if_neg h1, if_pos h2]
  · intro h1
    simp only [webResponse, h]
    rw [if_pos h1, h1]

/-- C7 witness: one extracted item and the banner "1,234 results" yield the
trailing count record 1234; an empty item list yields the empty sequence. -/
theorem c7_witness :
    webResponse (some ⟨[⟨some ⟨some "https://example.org/a", "Title"⟩, "snip"⟩],
      "1,234 results"⟩) =
      .ok [.normal "https://example.org/a" "Title" "snip", .count 1234]
    ∧ webResponse (some ⟨[], "1,234 results"⟩) = .ok [] := by
  constructor
  · have h := (c7_summary ⟨[⟨some ⟨some "https://example.org/a", "Title"⟩, "snip"⟩],
      "1,234 results"⟩ [.normal "https://example.org/a" "Title" "snip"] rfl).2.1
      (by exact ⟨by decide, by decide⟩)
    exact h.trans rfl
  · exact (c7_summary ⟨[], "1,234 results"⟩ [] rfl).2.2.2 rfl

/-- Shape of a market pair produced by get_locale_params: its key is
always "mkt". -/
theorem get_locale_params_mkt (x : Option String) (kv : String × String)
    (h : get_locale_params x = some kv) : kv.1 = "mkt" := by
  cases x with
  | none => cases h
  | some r =>
    rw [get_locale_params] at h
    by_cases hr : r = "" ∨ r = "clear"
    · rw [if_pos hr] at h
      cases h
    · rw [if_neg hr] at h
      cases h
      rfl

/-- C8: for every request-parameter bag, the web request's query pairs use
only the keys q, adlt and mkt — no pagination and no time-range parameter —
and both the pair list and the full URL are unchanged under any pageno and
time_range values. -/
theorem c8_web_ignores_paging (query : String) (p : ReqParams) (tr : EngineTraits) :
    (∀ k v, (k, v) ∈ webQueryParams query p tr → k = "q" ∨ k = "adlt" ∨ k = "mkt")
    ∧ (∀ page timeRange,
      webQueryParams query ⟨p.searxng_locale, p.safesearch, page, timeRange⟩ tr =
        webQueryParams query p tr)
    ∧ (∀ page timeRange,
      webRequestUrl query ⟨p.searxng_locale, p.safesearch, page, timeRange⟩ tr =
        webRequestUrl query p tr) := by
  refine ⟨?_, fun _ _ => rfl, fun _ _ => rfl⟩
  intro k v hkv
  simp only [webQueryParams] at hkv
  cases hg : get_locale_params (get_region tr p.searxng_locale) with
  | none =>
    rw [hg] at hkv
    simp only [List.mem_cons, List.not_mem_nil, or_false, Prod.mk.injEq] at hkv
    rcases hkv with ⟨h1, -⟩ | ⟨h1, -⟩
    · exact Or.inl h1
    · exact Or.inr (Or.inl h1)
  | some kv0 =>
    rw [hg] at hkv
    rcases List.mem_append.mp hkv with hm | hm
    · simp only [List.mem_cons, List.not_mem_nil, or_false, Prod.mk.injEq] at hm
      rcases hm with ⟨h1, -⟩ | ⟨h1, -⟩
      · exact Or.inl h1
      · exact Or.inr (Or.inl h1)
    · simp only [List.mem_singleton] at hm
      have := get_locale_params_mkt _ _ hg
      rw [← hm] at this
      exact Or.inr (Or.inr this)


/-- Shape of a market pair produced by get_locale_params: always the mkt
key with the region as value. -/
theorem get_locale_params_shape (x : Option String) (kv : String × String)
    (h : get_locale_params x = some kv) : ∃ r, kv = ("mkt", r) := by
  cases x with
  | none => cases h
  | some r =>
    rw [get_locale_params] at h
    by_cases hr : r = "" ∨ r = "clear"
    · rw [if_pos hr] at h
      cases h
    · rw [if_neg hr] at h
      cases h
      exact ⟨r, rfl⟩

/-- C9: for a page number p of at least 1, the news request sets first to
(p-1)*10+1 and SFX to p-1 for every time range; day, week and month map
through the time_map table to the interval codes 4, 7 and 9; every other
non-empty range (year included) falls back to the month code 9; and a
missing time range emits no qft pair. -/
theorem c9_news_paging_timerange (query : String) (p : ReqParams) (tr : EngineTraits)
    (hp : 1 ≤ p.pageno) :
    (∀ trg, List.lookup "first"
        (newsQueryParams query ⟨p.searxng_locale, p.safesearch, p.pageno, trg⟩ tr) =
        some (toString ((p.pageno - 1) * 10 + 1))
      ∧ List.lookup "SFX"
        (newsQueryParams query ⟨p.searxng_locale, p.safesearch, p.pageno, trg⟩ tr) =
        some (toString (p.pageno - 1)))
    ∧ List.lookup "qft"
        (newsQueryParams query ⟨p.searxng_locale, p.safesearch, p.pageno, some "day"⟩ tr) =
        some "interval=\"4\""
    ∧ List.lookup "qft"
        (newsQueryParams query ⟨p.searxng_locale, p.safesearch, p.pageno, some "week"⟩ tr) =
        some "interval=\"7\""
    ∧ List.lookup "qft"
        (newsQueryParams query ⟨p.searxng_locale, p.safesearch, p.pageno, some "month"⟩ tr) =
        some "interval=\"9\""
    ∧ (∀ s : String, s ≠ "day" → s ≠ "week" → s ≠ "month" → s ≠ "" →
      List.lookup "qft"
        (newsQueryParams query ⟨p.searxng_locale, p.safesearch, p.pageno, some s⟩ tr) =
        some "interval=\"9\"")
    ∧ List.lookup "qft"
        (newsQueryParams query ⟨p.searxng_locale, p.safesearch, p.pageno, none⟩ tr) =
        none := by
  refine ⟨?_, ?_, ?_, ?_, ?_, ?_⟩
  · intro trg
    constructor
    · cases hg : get_locale_params (get_region tr p.searxng_locale) with
      | none =>
        cases trg with
        | none => simp [newsQueryParams, hg, List.lookup]
        | some trg' =>
          by_cases htrg : trg' = "" <;>
            simp [newsQueryParams, hg, List.lookup, htrg]
      | some kv0 =>
        obtain ⟨r, rfl⟩ := get_locale_params_shape _ _ hg
        cases trg with
        | none => simp [newsQueryParams, hg, List.lookup]
        | some trg' =>
          by_cases htrg : trg' = "" <;>
            simp [newsQueryParams, hg, List.lookup, htrg]
    · cases hg : get_locale_params (get_region tr p.searxng_locale) with
      | none =>
        cases trg with
        | none => simp [newsQueryParams, hg, List.lookup]
        | some trg' =>
          by_cases htrg : trg' = "" <;>
            simp [newsQueryParams, hg, List.lookup, htrg]
      | some kv0 =>
        obtain ⟨r, rfl⟩ := get_locale_params_shape _ _ hg
        cases trg with
        | none => simp [newsQueryParams, hg, List.lookup]
        | some trg' =>
          by_cases htrg : trg' = "" <;>
            simp [newsQueryParams, hg, List.lookup, htrg]
  · cases hg : get_locale_params (get_region tr p.searxng_locale) with
    | none => simp [newsQueryParams, hg, List.lookup, time_map]
    | some kv0 =>
      obtain ⟨r, rfl⟩ := get_locale_params_shape _ _ hg
      simp [newsQueryParams, hg, List.lookup, time_map]
  · cases hg : get_locale_params (get_region tr p.searxng_locale) with
    | none => simp [newsQueryParams, hg, List.lookup, time_map]
    | some kv0 =>
      obtain ⟨r, rfl⟩ := get_locale_params_shape _ _ hg
      simp [newsQueryParams, hg, List.lookup, time_map]
  · cases hg : get_locale_params (get_region tr p.searxng_locale) with
    | none => simp [newsQueryParams, hg, List.lookup, time_map]
    | some kv0 =>
      obtain ⟨r, rfl⟩ := get_locale_params_shape _ _ hg
      simp [newsQueryParams, hg, List.lookup, time_map]
  · intro s h1 h2 h3 h4
    have e1 : (s == "day") = false := beq_eq_false_iff_ne.mpr h1
    have e2 : (s == "week") = false := beq_eq_false_iff_ne.mpr h2
    have e3 : (s == "month") = false := beq_eq_false_iff_ne.mpr h3
    cases hg : get_locale_params (get_region tr p.searxng_locale) with
    | none => simp [newsQueryParams, hg, List.lookup, time_map, h4, e1, e2, e3]
    | some kv0 =>
      obtain ⟨r, rfl⟩ := get_locale_params_shape _ _ hg
      simp [newsQueryParams, hg, List.lookup, time_map, h4, e1, e2, e3]
  · cases hg : get_locale_params (get_region tr p.searxng_locale) with
    | none => simp [newsQueryParams, hg, List.lookup]
    | some kv0 =>
      obtain ⟨r, rfl⟩ := get_locale_params_shape _ _ hg
      simp [newsQueryParams, hg, List.lookup]

/-- C9 witness: the paging and time-range conclusions evaluated at page 3
with the year range (falling back to the month code) and with no range. -/
theorem c9_witness :
    List.lookup "first" (newsQueryParams "q" ⟨none, 0, 3, some "year"⟩ ⟨[], none⟩) =
      some "21"
    ∧ List.lookup "SFX" (newsQueryParams "q" ⟨none, 0, 3, some "year"⟩ ⟨[], none⟩) =
      some "2"
    ∧ List.lookup "qft" (newsQueryParams "q" ⟨none, 0, 3, some "year"⟩ ⟨[], none⟩) =
      some "interval=\"9\""
    ∧ List.lookup "qft" (newsQueryParams "q" ⟨none, 0, 3, none⟩ ⟨[], none⟩) = none := by
  have h := c9_news_paging_timerange "q" ⟨none, 0, 3, none⟩ ⟨[], none⟩ (by decide)
  exact ⟨((h.1 (some "year")).1).trans rfl, ((h.1 (some "year")).2).trans rfl,
    h.2.2.2.2.1 "year" (by decide) (by decide) (by decide) (by decide), h.2.2.2.2.2⟩

/-- C10: for a locale tag that is missing, empty, "clear" or absent from
the regions trait table (the all_locale default being the clear sentinel
or unset), the resolved region yields no market pair and the web request
omits the mkt parameter entirely instead of failing. -/
theorem c10_market_omission (tr : EngineTraits)
    (hall : tr.all_locale = none ∨ tr.all_locale = some "clear")
    (tag : Option String)
    (htag : tag = none ∨ tag = some "" ∨ tag = some "clear"
      ∨ ∃ t, tag = some t ∧ List.lookup t tr.regions = none)
    (query : String) (p : ReqParams) :
    get_locale_params (get_region tr tag) = none
    ∧ ∀ v, ("mkt", v) ∉ webQueryParams query ⟨tag, p.safesearch, p.pageno, p.time_range⟩ tr := by
  have hmain : get_locale_params (get_region tr tag) = none := by
    have hdef : get_locale_params tr.all_locale = none := by
      rcases hall with h | h <;> simp [h, get_locale_params]
    rcases htag with h | h | h | ⟨t, h, hlk⟩
    · rw [h, get_region]
      exact hdef
    · rw [h, get_region]
      rw [if_pos (Or.inl rfl)]
      exact hdef
    · rw [h, get_region]
      rw [if_pos (Or.inr rfl)]
      exact hdef
    · rw [h, get_region]
      by_cases hE : t = "" ∨ t = "clear"
      · rw [if_pos hE]
        exact hdef
      · rw [if_neg hE, hlk]
        exact hdef
  refine ⟨hmain, ?_⟩
  intro v hmem
  simp only [webQueryParams] at hmem
  rw [hmain] at hmem
  simp only [List.mem_cons, List.not_mem_nil, or_false, Prod.mk.injEq] at hmem
  rcases hmem with ⟨h1, -⟩ | ⟨h1, -⟩ <;> exact absurd h1 (by decide)

/-- C10 witness: the omission applied to an unknown tag over a concrete
trait table. -/
theorem c10_witness :
    get_locale_params (get_region ⟨[("en-US", "en-us")], some "clear"⟩ (some "xx-XX")) = none
    ∧ ∀ v, ("mkt", v) ∉
      webQueryParams "q" ⟨some "xx-XX", 1, 1, none⟩ ⟨[("en-US", "en-us")], some "clear"⟩ := by
  exact c10_market_omission ⟨[("en-US", "en-us")], some "clear"⟩ (Or.inr rfl)
    (some "xx-XX") (Or.inr (Or.inr (Or.inr ⟨"xx-XX", rfl, by decide⟩))) "q" ⟨none, 1, 1, none⟩

/-- C8 witness: the key restriction and the paging invariance applied to a
concrete request over a concrete trait table. -/
theorem c8_witness :
    (("mkt" : String) = "q" ∨ ("mkt" : String) = "adlt" ∨ ("mkt" : String) = "mkt")
    ∧ webQueryParams "foo" ⟨some "de-DE", 1, 99, some "week"⟩
        ⟨[("de-DE", "de-de")], some "clear"⟩ =
      webQueryParams "foo" ⟨some "de-DE", 1, 1, none⟩
        ⟨[("de-DE", "de-de")], some "clear"⟩ := by
  constructor
  · exact (c8_web_ignores_paging "foo" ⟨some "de-DE", 1, 1, none⟩
      ⟨[("de-DE", "de-de")], some "clear"⟩).1 "mkt" "de-de" (by decide)
  · exact (c8_web_ignores_paging "foo" ⟨some "de-DE", 1, 1, none⟩
      ⟨[("de-DE", "de-de")], some "clear"⟩).2.1 99 (some "week")
